import Mathlib

/-!
Verification of the Connect4Rust frontend (`src/web/src/main.ts`).

The frontend keeps a mutable `state : GameState` with a 7×6 `board`
(`HEIGHT` rows of `WIDTH` cells, row 0 at the bottom), a move-history
string, a difficulty `level` and a `busy` flag.  We embed the board as a
list of rows of cells and the history as the list of appended tokens
(player marker, column digit) — `appendHistory` writes exactly one such
token per call as the string `code ++ toString col`.

Two granularities of the event loop are used.  `Reachable` runs one
complete `handleMove` per `click` transition (with the outcome of its
single `/api/move` fetch supplied as an `Option Nat`): the `busy` flag
serialises further clicks, so this covers exactly the executions in
which no reset interleaves a transaction in flight.  It is used for
concrete existential traces and for the level invariant, whose dynamics
no interleaving affects (nothing executed mid-flight writes `level`).
But `resetGame` has no `busy` guard and clears `busy`, so a reset may
run while a fetch is suspended, and afterwards new clicks may overlap
the still-pending transaction.  `SysState`/`SysStep` model this full
semantics: every synchronous block between `await` suspension points is
one step, in-flight requests survive a reset as pending counters, and a
pending response is applied to whatever board exists when it resolves —
exactly as `aiMove` re-reads `state.board` after its awaits.
-/

namespace Connect4Web

/-- Cell state, as in `main.ts`: 0 = empty, 1 = human (blue), 2 = AI (red). -/
abbrev Cell := Nat

/-- `state.board`: `HEIGHT` rows (index 0 = bottom), each of `WIDTH` cells. -/
abbrev Board := List (List Cell)

def WIDTH : Nat := 7

def HEIGHT : Nat := 6

/-- Read `board[row][col]`; `none` models the JS `undefined` obtained on an
out-of-range index. -/
def getCell (b : Board) (row col : Nat) : Option Cell :=
  (getElem? b row).bind fun line => getElem? line col

/-- Write `board[row][col] = v` (no-op outside the allocated rows, which the
code never does: it only writes cells it has just read as empty). -/
def setCell (b : Board) (row col : Nat) (v : Cell) : Board :=
  match getElem? b row with
  | some line => b.set row (line.set col v)
  | none => b

/-- The `for (let row = 0; row < HEIGHT; row++)` loop of `dropPiece`,
with the remaining iteration count as `fuel` (`row + fuel = HEIGHT` at the
call site): the first row whose cell is empty is set to `player` and
returned; if the loop exhausts, the result is `-1` with the board intact. -/
def dropPieceGo (b : Board) (player col : Nat) : Nat → Nat → Board × Int
  | _, 0 => (b, -1)
  | row, fuel + 1 =>
    if getCell b row col = some 0 then (setCell b row col player, (row : Int))
    else dropPieceGo b player col (row + 1) fuel

/-- `dropPiece(player, col)` from `main.ts`, returning the updated board
together with the landing row (or `-1` for a full/out-of-range column). -/
def dropPiece (b : Board) (player col : Nat) : Board × Int :=
  dropPieceGo b player col 0 HEIGHT

/-- The four direction steps tried by `findWinningLine`:
`[[1,0],[0,1],[1,1],[1,-1]]`. -/
def dirs : List (Int × Int) := [(1, 0), (0, 1), (1, 1), (1, -1)]

/-- The `i`-th cell probed by `collectLine`: `(col + dc*i, row + dr*i)`. -/
def cellAt (col row dc dr : Int) (i : Nat) : Int × Int :=
  (col + dc * (i : Int), row + dr * (i : Int))

/-- The `for (let i = 0; i < 4; i++)` loop of `collectLine`, `fuel` being the
remaining iterations: each probed cell must be in bounds and hold `player`,
otherwise the result is `null`; afterwards the accumulated cells are returned
when exactly 4 were collected. -/
def collectLineGo (b : Board) (player : Cell) (col row dc dr : Int) :
    Nat → Nat → List (Int × Int) → Option (List (Int × Int))
  | 0, _, cells => if cells.length = 4 then some cells else none
  | fuel + 1, i, cells =>
    if col + dc * (i : Int) < 0 ∨ (WIDTH : Int) ≤ col + dc * (i : Int) ∨
        row + dr * (i : Int) < 0 ∨ (HEIGHT : Int) ≤ row + dr * (i : Int) then none
    else if getCell b (row + dr * (i : Int)).toNat (col + dc * (i : Int)).toNat ≠ some player
      then none
    else collectLineGo b player col row dc dr fuel (i + 1)
      (cells ++ [(col + dc * (i : Int), row + dr * (i : Int))])

/-- `collectLine(player, col, row, dc, dr)` from `main.ts`. -/
def collectLine (b : Board) (player : Cell) (col row dc dr : Int) :
    Option (List (Int × Int)) :=
  collectLineGo b player col row dc dr 4 0 []

/-- `findWinningLine(player)`: scan every start cell `c < 7`, `r < 6` and each
direction, returning the first collected line (the `player` field of the JS
result record is just the argument, so we return only the cells). -/
def findWinningLine (b : Board) (player : Cell) : Option (List (Int × Int)) :=
  (List.range WIDTH).findSome? fun (c : Nat) =>
    (List.range HEIGHT).findSome? fun (r : Nat) =>
      dirs.findSome? fun d =>
        collectLine b player (c : Int) (r : Int) d.1 d.2

/-- Spec-side reading of one probed position: in bounds and holding `player`. -/
def okLineCell (b : Board) (player : Cell) (q : Int × Int) : Prop :=
  0 ≤ q.1 ∧ q.1 < (WIDTH : Int) ∧ 0 ≤ q.2 ∧ q.2 < (HEIGHT : Int) ∧
    getCell b q.2.toNat q.1.toNat = some player

/-- Modelled from the spec wording for win detection: the board contains four
consecutively-connected cells of `player` along one of the four direction
steps (their common start cell is then itself in bounds). -/
def hasFourInRow (b : Board) (player : Cell) : Prop :=
  ∃ col row : Int, ∃ d ∈ dirs,
    ∀ i : Nat, i < 4 → okLineCell b player (cellAt col row d.1 d.2 i)

/-- The frontend game state (`state` in `main.ts`); the transient `busy` flag
only serialises clicks and is absorbed into the atomicity of a `click`
transition, and the history string is kept as its list of appended tokens. -/
structure GameState where
  board : Board
  history : List (Cell × Nat)
  level : Nat

def emptyBoard : Board := List.replicate HEIGHT (List.replicate WIDTH 0)

/-- The initial `state` literal: empty board, empty history, level 7. -/
def initState : GameState := { board := emptyBoard, history := [], level := 7 }

/-- `appendHistory(player, col)`: append the token `code ++ toString col`
with `code = "B"` for player 1 and `"R"` otherwise. -/
def appendHistory (s : GameState) (player : Cell) (col : Nat) : GameState :=
  { s with history := s.history ++ [(player, col)] }

/-- The history string actually sent on the wire, rebuilt from the token
list exactly as the successive `state.history += code + col` writes do. -/
def historyString (h : List (Cell × Nat)) : String :=
  h.foldl (fun acc t => acc ++ (if t.1 = 1 then "B" else "R") ++ toString t.2) ""

/-- `aiMove()` with the outcome of its fetch supplied as `resp`: `none` models
a rejected fetch or a non-ok HTTP status (the `throw` happens before any state
write), `some k` a parsed `{ column: k }` body.  On `dropPiece` returning `-1`
the function throws into its own `catch`, so the state is left untouched. -/
def aiMove (s : GameState) (resp : Option Nat) : GameState :=
  match resp with
  | none => s
  | some k =>
    let dr := dropPiece s.board 2 k
    if dr.2 = -1 then s
    else appendHistory { s with board := dr.1 } 2 k

/-- `handleMove(col)` (one whole click transaction): drop the human piece,
return unchanged if the column is full, otherwise record the token and run
`aiMove` with fetch outcome `resp`. -/
def handleMove (s : GameState) (col : Nat) (resp : Option Nat) : GameState :=
  let dr := dropPiece s.board 1 col
  if dr.2 = -1 then s
  else aiMove (appendHistory { s with board := dr.1 } 1 col) resp

/-- `resetGame()`: fresh board and history; `state.level` is not touched. -/
def resetGame (s : GameState) : GameState :=
  { s with board := emptyBoard, history := [] }

/-- UI states reachable when no reset or further click interleaves a
transaction in flight, i.e. each `handleMove` runs to completion before the
next event: the initial state, a canvas click on a column `col < WIDTH` (the
click handler discards out-of-range columns) whose fetch outcome is `resp`,
the reset button between moves, and a level-slider input (the slider is
declared `min="1" max="15"`, so the browser only ever yields values in that
range).  This coarse model is used existentially, to exhibit concrete traces
(each constructor application is a real execution), and for the level
invariant, whose dynamics no interleaving affects — nothing that can run
mid-flight writes `level`.  The full interleaving semantics, resets during an
in-flight request included, is `SysStep` below. -/
inductive Reachable : GameState → Prop
  | init : Reachable initState
  | click {s : GameState} (col : Nat) (resp : Option Nat) :
      Reachable s → col < WIDTH → Reachable (handleMove s col resp)
  | reset {s : GameState} : Reachable s → Reachable (resetGame s)
  | setLevel {s : GameState} (v : Nat) :
      Reachable s → 1 ≤ v → v ≤ 15 → Reachable { s with level := v }

/-- Full event-loop state: the mutable fields of `state` that the claims are
about, plus the two suspension phases a `handleMove` transaction can be parked
in.  `fetching` counts transactions whose human move is recorded but whose
`/api/move` response has not yet been processed; `finishing` counts
transactions past `aiMove` (successful or caught) that have not yet executed
their final `state.busy = false` write.  Transactions carry no further data —
the response body is only read when the fetch resolves. -/
structure SysState where
  board : Board
  history : List (Cell × Nat)
  level : Nat
  busy : Bool
  fetching : Nat
  finishing : Nat

def sysInit : SysState :=
  { board := emptyBoard, history := [], level := 7, busy := false,
    fetching := 0, finishing := 0 }

/-- One step per synchronous block of `main.ts` between `await` points:
* `click`: a canvas click with `busy` unset whose human drop succeeds —
  `busy = true`, drop, append, then suspend awaiting the fetch (a click on a
  full column toggles `busy` back synchronously and changes nothing, a click
  with `busy` set returns at once; both leave the state as it was);
* `resolveFail`: the fetch rejects, the status is not ok, or the returned
  column admits no drop — the `throw` lands in the `catch` before any write
  (a `-1` drop wrote nothing), the transaction goes on to await animations;
* `resolveOk`: the response parses to column `k` droppable on the board as it
  is *now* — drop, append, suspend;
* `finish`: a transaction past `aiMove` resumes and runs `busy = false`;
* `reset`: the reset button (no `busy` guard, clears `busy`, pending
  transactions keep running);
* `setLevel`: the slider, clamped by its declared `min`/`max` to [1,15]. -/
inductive SysStep : SysState → SysState → Prop
  | click {s : SysState} (col : Nat) :
      col < WIDTH → s.busy = false → (dropPiece s.board 1 col).2 ≠ -1 →
      SysStep s { board := (dropPiece s.board 1 col).1,
                  history := s.history ++ [(1, col)],
                  level := s.level, busy := true,
                  fetching := s.fetching + 1, finishing := s.finishing }
  | resolveFail {s : SysState} (resp : Option Nat) :
      0 < s.fetching →
      (resp = none ∨ ∃ k : Nat, resp = some k ∧ (dropPiece s.board 2 k).2 = -1) →
      SysStep s { s with fetching := s.fetching - 1, finishing := s.finishing + 1 }
  | resolveOk {s : SysState} (k : Nat) :
      0 < s.fetching → (dropPiece s.board 2 k).2 ≠ -1 →
      SysStep s { board := (dropPiece s.board 2 k).1,
                  history := s.history ++ [(2, k)],
                  level := s.level, busy := s.busy,
                  fetching := s.fetching - 1, finishing := s.finishing + 1 }
  | finish {s : SysState} :
      0 < s.finishing →
      SysStep s { s with busy := false, finishing := s.finishing - 1 }
  | reset {s : SysState} :
      SysStep s { s with board := emptyBoard, history := [], busy := false }
  | setLevel {s : SysState} (v : Nat) :
      1 ≤ v → v ≤ 15 → SysStep s { s with level := v }

/-- All states of the full event-loop semantics, resets mid-flight and
overlapping transactions included. -/
inductive SysReachable : SysState → Prop
  | init : SysReachable sysInit
  | step {s t : SysState} : SysReachable s → SysStep s t → SysReachable t

/-- The restricted executions of the amended C3: every `/api/move` request
resolves successfully (`resolveFail` never happens) and the reset button is
only pressed while no transaction is in flight. -/
inductive SysReachableOk : SysState → Prop
  | init : SysReachableOk sysInit
  | click {s : SysState} (col : Nat) :
      SysReachableOk s → col < WIDTH → s.busy = false →
      (dropPiece s.board 1 col).2 ≠ -1 →
      SysReachableOk { board := (dropPiece s.board 1 col).1,
                       history := s.history ++ [(1, col)],
                       level := s.level, busy := true,
                       fetching := s.fetching + 1, finishing := s.finishing }
  | resolveOk {s : SysState} (k : Nat) :
      SysReachableOk s → 0 < s.fetching → (dropPiece s.board 2 k).2 ≠ -1 →
      SysReachableOk { board := (dropPiece s.board 2 k).1,
                       history := s.history ++ [(2, k)],
                       level := s.level, busy := s.busy,
                       fetching := s.fetching - 1, finishing := s.finishing + 1 }
  | finish {s : SysState} :
      SysReachableOk s → 0 < s.finishing →
      SysReachableOk { s with busy := false, finishing := s.finishing - 1 }
  | reset {s : SysState} :
      SysReachableOk s → s.fetching = 0 → s.finishing = 0 →
      SysReachableOk { s with board := emptyBoard, history := [], busy := false }
  | setLevel {s : SysState} (v : Nat) :
      SysReachableOk s → 1 ≤ v → v ≤ 15 → SysReachableOk { s with level := v }

/-- The state the coarse model misses: click column 0, reset while the fetch
is in flight, then the response (column 1) resolves against the fresh board —
a lone red piece and the history token list of "R1". -/
def sysAfterReset : SysState :=
  { board := (dropPiece emptyBoard 2 1).1, history := [(2, 1)], level := 7,
    busy := false, fetching := 0, finishing := 1 }

/-- State after one click on column 3 answered successfully in column 3,
inside the restricted (all-requests-succeed, no mid-flight reset) system. -/
def sysOkExample : SysState :=
  { board := (dropPiece (dropPiece emptyBoard 1 3).1 2 3).1,
    history := [(1, 3), (2, 3)], level := 7, busy := true,
    fetching := 0, finishing := 1 }

/-- Is `board[row][col]` occupied (a cell holding a nonzero player)? -/
def isOccupied (b : Board) (row col : Nat) : Bool :=
  match getCell b row col with
  | some v => !(v == 0)
  | none => false

/-- Number of occupied cells in column `c` of the board. -/
def colCount (b : Board) (c : Nat) : Nat :=
  (List.range HEIGHT).countP fun r => isOccupied b r c

/-- Number of history tokens targeting column `c`. -/
def histColCount (h : List (Cell × Nat)) (c : Nat) : Nat :=
  h.countP fun t => t.2 == c

/-- A concrete trace: three human moves in column 0 each answered in
column 1, then a fourth human move in column 0 (its AI request failing),
which completes four stacked blue pieces — a decided position. -/
def winTrace : GameState :=
  handleMove (handleMove (handleMove (handleMove initState
    0 (some 1)) 0 (some 1)) 0 (some 1)) 0 none

/-- A concrete board with a horizontal blue four on the bottom row. -/
def bWin : Board :=
  [[1, 1, 1, 1, 0, 0, 0],
   [0, 0, 0, 0, 0, 0, 0],
   [0, 0, 0, 0, 0, 0, 0],
   [0, 0, 0, 0, 0, 0, 0],
   [0, 0, 0, 0, 0, 0, 0],
   [0, 0, 0, 0, 0, 0, 0]]

/-! ## Basic cell lemmas -/

theorem getCell_eq_some {b : Board} {r c : Nat} {x : Cell}
    (h : getCell b r c = some x) :
    ∃ line, getElem? b r = some line ∧ getElem? line c = some x := by
  unfold getCell at h
  exact Option.bind_eq_some.mp h

theorem getCell_setCell_self {b : Board} {r c : Nat} {x : Cell} (v : Cell)
    (h : getCell b r c = some x) :
    getCell (setCell b r c v) r c = some v := by
  obtain ⟨line, hb, hl⟩ := getCell_eq_some h
  obtain ⟨hr, -⟩ := List.getElem?_eq_some_iff.mp hb
  obtain ⟨hc, -⟩ := List.getElem?_eq_some_iff.mp hl
  unfold setCell
  rw [hb]
  unfold getCell
  rw [List.getElem?_set_self (by simpa using hr), Option.bind_eq_some]
  exact ⟨line.set c v, rfl, List.getElem?_set_self (by simpa using hc)⟩

theorem getCell_setCell_ne {b : Board} {r c : Nat} (v : Cell) {r' c' : Nat}
    (h : r' ≠ r ∨ c' ≠ c) :
    getCell (setCell b r c v) r' c' = getCell b r' c' := by
  unfold setCell
  cases hb : getElem? b r with
  | none => rfl
  | some line =>
    unfold getCell
    rcases eq_or_ne r' r with rfl | hne
    · obtain ⟨hr, -⟩ := List.getElem?_eq_some_iff.mp hb
      rw [List.getElem?_set_self (by simpa using hr), hb]
      have hc : c' ≠ c := h.resolve_left (by simp)
      simp [List.getElem?_set_ne (Ne.symm hc)]
    · rw [List.getElem?_set_ne (Ne.symm hne)]

/-! ## The dropPiece loop -/

theorem dropPieceGo_spec (b : Board) (p c : Nat) :
    ∀ (fuel row : Nat),
      (∃ k : Nat, k < fuel ∧ getCell b (row + k) c = some 0 ∧
          (∀ j : Nat, j < k → getCell b (row + j) c ≠ some 0) ∧
          dropPieceGo b p c row fuel = (setCell b (row + k) c p, ((row + k : Nat) : Int)))
      ∨ ((∀ k : Nat, k < fuel → getCell b (row + k) c ≠ some 0) ∧
          dropPieceGo b p c row fuel = (b, -1)) := by
  intro fuel
  induction fuel with
  | zero => exact fun row => .inr ⟨fun k hk => absurd hk (Nat.not_lt_zero k), rfl⟩
  | succ fuel ih =>
    intro row
    by_cases h0 : getCell b row c = some 0
    · refine .inl ⟨0, Nat.succ_pos fuel, by simpa using h0, fun j hj => absurd hj (Nat.not_lt_zero j), ?_⟩
      simp [dropPieceGo, h0]
    · rcases ih (row + 1) with ⟨k, hk, hcell, hmin, heq⟩ | ⟨hall, heq⟩
      · refine .inl ⟨k + 1, by omega, ?_, ?_, ?_⟩
        · have : row + (k + 1) = row + 1 + k := by omega
          rw [this]; exact hcell
        · intro j hj
          match j with
          | 0 => simpa using h0
          | j + 1 =>
            have : row + (j + 1) = row + 1 + j := by omega
            rw [this]; exact hmin j (by omega)
        · have h1 : row + (k + 1) = row + 1 + k := by omega
          rw [h1]
          simpa [dropPieceGo, h0] using heq
      · refine .inr ⟨?_, by simpa [dropPieceGo, h0] using heq⟩
        intro k hk
        match k with
        | 0 => simpa using h0
        | k + 1 =>
          have : row + (k + 1) = row + 1 + k := by omega
          rw [this]; exact hall k (by omega)

/-- C5: for every board, player and column, the dropPiece loop either sets the
lowest empty row of the column to the player and returns that row, or — when
no row of the column is playable — returns -1 leaving the board unchanged. -/
theorem dropPiece_spec (b : Board) (p c : Nat) :
    (∃ r : Nat, r < HEIGHT ∧ getCell b r c = some 0 ∧
        (∀ j : Nat, j < r → getCell b j c ≠ some 0) ∧
        dropPiece b p c = (setCell b r c p, (r : Int)))
    ∨ ((∀ r : Nat, r < HEIGHT → getCell b r c ≠ some 0) ∧
        dropPiece b p c = (b, -1)) := by
  have h := dropPieceGo_spec b p c HEIGHT 0
  unfold dropPiece
  simpa using h

/-- C10: a successful dropPiece (landing row r) changes exactly one cell —
board[r][c] goes from empty to the player — and every other cell is
unchanged; in particular no occupied cell is ever overwritten. -/
theorem dropPiece_frame (b : Board) (p c : Nat) (r : Nat)
    (h : (dropPiece b p c).2 = (r : Int)) :
    getCell b r c = some 0 ∧
    getCell (dropPiece b p c).1 r c = some p ∧
    ∀ r' c' : Nat, r' ≠ r ∨ c' ≠ c →
      getCell (dropPiece b p c).1 r' c' = getCell b r' c' := by
  rcases dropPiece_spec b p c with ⟨r0, -, hcell, -, heq⟩ | ⟨-, heq⟩
  · have hr0 : r0 = r := by
      have h2 := h
      rw [heq] at h2
      simp only [] at h2
      exact_mod_cast h2
    subst hr0
    rw [heq]
    exact ⟨hcell, getCell_setCell_self p hcell,
      fun r' c' hne => getCell_setCell_ne p hne⟩
  · rw [heq] at h
    simp only [] at h
    omega

theorem dropPiece_frame_witness :
    (dropPiece emptyBoard 1 0).2 = ((0 : Nat) : Int) ∧
    (getCell emptyBoard 0 0 = some 0 ∧
      getCell (dropPiece emptyBoard 1 0).1 0 0 = some 1 ∧
      ∀ r' c' : Nat, r' ≠ 0 ∨ c' ≠ 0 →
        getCell (dropPiece emptyBoard 1 0).1 r' c' = getCell emptyBoard r' c') :=
  ⟨by decide, dropPiece_frame emptyBoard 1 0 0 (by decide)⟩

/-! ## The collectLine loop -/

theorem range_succ_map_shift {α : Type} (f : Nat → α) (n i : Nat) :
    (List.range (n + 1)).map (fun j => f (i + j)) =
      f (i + 0) :: (List.range n).map (fun j => f (i + 1 + j)) := by
  rw [List.range_succ_eq_map, List.map_cons, List.map_map]
  congr 1
  apply List.map_congr_left
  intro a _
  simp only [Function.comp_apply]
  congr 1
  omega

theorem collectLineGo_eq_some_iff (b : Board) (p : Cell) (col row dc dr : Int) :
    ∀ (fuel i : Nat) (cells res : List (Int × Int)),
      collectLineGo b p col row dc dr fuel i cells = some res ↔
        ((∀ j : Nat, j < fuel → okLineCell b p (cellAt col row dc dr (i + j))) ∧
          res = cells ++ (List.range fuel).map (fun j => cellAt col row dc dr (i + j)) ∧
          cells.length + fuel = 4) := by
  intro fuel
  induction fuel with
  | zero =>
    intro i cells res
    simp only [collectLineGo, List.range_zero, List.map_nil, List.append_nil, Nat.add_zero]
    split
    · constructor
      · rintro h
        exact ⟨fun j hj => absurd hj (Nat.not_lt_zero j), (Option.some.injEq _ _ ▸ h).symm, by omega⟩
      · rintro ⟨-, rfl, -⟩
        rfl
    · constructor
      · rintro h
        exact absurd h (by simp)
      · rintro ⟨-, rfl, hlen⟩
        omega
  | succ fuel ih =>
    intro i cells res
    have hpt : cellAt col row dc dr (i + 0) = (col + dc * (i : Int), row + dr * (i : Int)) := by
      simp [cellAt]
    simp only [collectLineGo]
    split
    · rename_i hbad
      constructor
      · rintro h
        exact absurd h (by simp)
      · rintro ⟨hok, -, -⟩
        have h0 := hok 0 (Nat.succ_pos fuel)
        rw [hpt] at h0
        obtain ⟨h1, h2, h3, h4, -⟩ := h0
        simp only [] at h1 h2 h3 h4
        omega
    · rename_i hbad
      split
      · rename_i hne
        constructor
        · rintro h
          exact absurd h (by simp)
        · rintro ⟨hok, -, -⟩
          have h0 := hok 0 (Nat.succ_pos fuel)
          rw [hpt] at h0
          exact absurd h0.2.2.2.2 hne
      · rename_i hne
        rw [ih (i + 1) _ res]
        push_neg at hbad hne
        have hoki : okLineCell b p (cellAt col row dc dr (i + 0)) := by
          rw [hpt]
          exact ⟨by omega, by omega, by omega, by omega, hne⟩
        constructor
        · rintro ⟨hok, hres, hlen⟩
          refine ⟨?_, ?_, by simp at hlen; omega⟩
          · intro j hj
            match j with
            | 0 => exact hoki
            | j + 1 =>
              have hj2 : i + (j + 1) = i + 1 + j := by omega
              rw [hj2]
              exact hok j (by omega)
          · rw [hres, List.append_assoc, List.singleton_append,
              range_succ_map_shift, hpt]
        · rintro ⟨hok, hres, hlen⟩
          refine ⟨?_, ?_, by simp; omega⟩
          · intro j hj
            have hj2 : i + 1 + j = i + (j + 1) := by omega
            rw [hj2]
            exact hok (j + 1) (by omega)
          · rw [hres, range_succ_map_shift, hpt, List.append_assoc,
              List.singleton_append]

theorem collectLine_eq_some_iff (b : Board) (p : Cell) (col row dc dr : Int)
    (res : List (Int × Int)) :
    collectLine b p col row dc dr = some res ↔
      (∀ j : Nat, j < 4 → okLineCell b p (cellAt col row dc dr j)) ∧
      res = [cellAt col row dc dr 0, cellAt col row dc dr 1,
             cellAt col row dc dr 2, cellAt col row dc dr 3] := by
  unfold collectLine
  rw [collectLineGo_eq_some_iff]
  constructor
  · rintro ⟨hok, hres, -⟩
    refine ⟨fun j hj => by simpa using hok j hj, ?_⟩
    rw [hres]
    simp [List.range_succ]
  · rintro ⟨hok, hres⟩
    refine ⟨fun j hj => by simpa using hok j hj, ?_, by simp⟩
    rw [hres]
    simp [List.range_succ]

/-- C4: findWinningLine(p) is non-null exactly when the board holds four
consecutively-connected cells of p along one of the four direction steps
(1,0), (0,1), (1,1), (1,-1); and any returned line consists of exactly four
in-bounds cells all holding p, consecutive along one such step. -/
theorem findWinningLine_spec (b : Board) (p : Cell) :
    (findWinningLine b p ≠ none ↔ hasFourInRow b p) ∧
    (∀ res, findWinningLine b p = some res →
      ∃ col row : Int, ∃ d ∈ dirs,
        res = [cellAt col row d.1 d.2 0, cellAt col row d.1 d.2 1,
               cellAt col row d.1 d.2 2, cellAt col row d.1 d.2 3] ∧
        ∀ q ∈ res, okLineCell b p q) := by
  have extract : ∀ res, findWinningLine b p = some res →
      ∃ c : Nat, c < WIDTH ∧ ∃ r : Nat, r < HEIGHT ∧ ∃ d ∈ dirs,
        collectLine b p (c : Int) (r : Int) d.1 d.2 = some res := by
    intro res h
    obtain ⟨c, hc, h⟩ := List.exists_of_findSome?_eq_some h
    obtain ⟨r, hr, h⟩ := List.exists_of_findSome?_eq_some h
    obtain ⟨d, hd, h⟩ := List.exists_of_findSome?_eq_some h
    exact ⟨c, List.mem_range.mp hc, r, List.mem_range.mp hr, d, hd, h⟩
  constructor
  · constructor
    · intro h
      cases hfw : findWinningLine b p with
      | none => exact absurd hfw h
      | some res =>
        obtain ⟨c, -, r, -, d, hd, hcoll⟩ := extract res hfw
        obtain ⟨hok, -⟩ := (collectLine_eq_some_iff b p _ _ _ _ res).mp hcoll
        exact ⟨(c : Int), (r : Int), d, hd, hok⟩
    · rintro ⟨col, row, d, hd, hok⟩
      have h0 := hok 0 (by omega)
      have hcell0 : cellAt col row d.1 d.2 0 = (col, row) := by
        simp [cellAt]
      rw [hcell0] at h0
      obtain ⟨hc0, hc1, hr0, hr1, -⟩ := h0
      simp only [] at hc0 hc1 hr0 hr1
      have hcol : ((col.toNat : Nat) : Int) = col := Int.toNat_of_nonneg hc0
      have hrow : ((row.toNat : Nat) : Int) = row := Int.toNat_of_nonneg hr0
      intro hnone
      rw [findWinningLine, List.findSome?_eq_none_iff] at hnone
      have h1 := hnone col.toNat (List.mem_range.mpr (by omega))
      rw [List.findSome?_eq_none_iff] at h1
      have h2 := h1 row.toNat (List.mem_range.mpr (by omega))
      rw [List.findSome?_eq_none_iff] at h2
      have h3 := h2 d hd
      have : collectLine b p ((col.toNat : Nat) : Int) ((row.toNat : Nat) : Int) d.1 d.2 =
          some [cellAt col row d.1 d.2 0, cellAt col row d.1 d.2 1,
                cellAt col row d.1 d.2 2, cellAt col row d.1 d.2 3] := by
        rw [hcol, hrow]
        exact (collectLine_eq_some_iff b p col row d.1 d.2 _).mpr ⟨hok, rfl⟩
      rw [h3] at this
      exact absurd this (by simp)
  · intro res hres
    obtain ⟨c, -, r, -, d, hd, hcoll⟩ := extract res hres
    obtain ⟨hok, hcells⟩ := (collectLine_eq_some_iff b p _ _ _ _ res).mp hcoll
    refine ⟨(c : Int), (r : Int), d, hd, hcells, ?_⟩
    intro q hq
    rw [hcells] at hq
    simp only [List.mem_cons, List.not_mem_nil, or_false] at hq
    rcases hq with rfl | rfl | rfl | rfl
    · exact hok 0 (by omega)
    · exact hok 1 (by omega)
    · exact hok 2 (by omega)
    · exact hok 3 (by omega)

theorem findWinningLine_spec_witness :
    hasFourInRow bWin 1 ∧
    (findWinningLine bWin 1 = some [((0 : Int), (0 : Int)), (1, 0), (2, 0), (3, 0)] ∧
      ∃ col row : Int, ∃ d ∈ dirs,
        ([((0 : Int), (0 : Int)), (1, 0), (2, 0), (3, 0)] : List (Int × Int)) =
          [cellAt col row d.1 d.2 0, cellAt col row d.1 d.2 1,
           cellAt col row d.1 d.2 2, cellAt col row d.1 d.2 3] ∧
        ∀ q ∈ ([((0 : Int), (0 : Int)), (1, 0), (2, 0), (3, 0)] : List (Int × Int)),
          okLineCell bWin 1 q) :=
  ⟨(findWinningLine_spec bWin 1).1.mp (by decide),
   by decide, (findWinningLine_spec bWin 1).2 _ (by decide)⟩

/-! ## The UI state machine -/

theorem aiMove_level (s : GameState) (resp : Option Nat) :
    (aiMove s resp).level = s.level := by
  unfold aiMove
  cases resp with
  | none => rfl
  | some k =>
    dsimp only []
    split
    · rfl
    · rfl

theorem handleMove_level (s : GameState) (col : Nat) (resp : Option Nat) :
    (handleMove s col resp).level = s.level := by
  unfold handleMove
  dsimp only []
  split
  · rfl
  · rw [aiMove_level]
    rfl

/-- C8: in every reachable state the difficulty level lies in [1,15]:
it starts at 7 and is only reassigned from the slider, whose declared
range is min 1, max 15. -/
theorem level_in_range {s : GameState} (hs : Reachable s) :
    1 ≤ s.level ∧ s.level ≤ 15 := by
  induction hs with
  | init => exact ⟨by decide, by decide⟩
  | click col resp hr hcol ih => rwa [handleMove_level]
  | reset hr ih => exact ih
  | setLevel v hr h1 h2 ih => exact ⟨h1, h2⟩

theorem level_in_range_witness :
    1 ≤ initState.level ∧ initState.level ≤ 15 :=
  level_in_range Reachable.init

theorem aiMove_none (s : GameState) : aiMove s none = s := rfl

theorem aiMove_fail {s : GameState} {k : Nat}
    (h : (dropPiece s.board 2 k).2 = -1) : aiMove s (some k) = s := by
  unfold aiMove
  dsimp only []
  rw [if_pos h]

theorem aiMove_succ {s : GameState} {k : Nat}
    (h : (dropPiece s.board 2 k).2 ≠ -1) :
    aiMove s (some k) =
      { board := (dropPiece s.board 2 k).1,
        history := s.history ++ [(2, k)], level := s.level } := by
  unfold aiMove appendHistory
  dsimp only []
  rw [if_neg h]

theorem handleMove_fail {s : GameState} {col : Nat} (resp : Option Nat)
    (h : (dropPiece s.board 1 col).2 = -1) : handleMove s col resp = s := by
  unfold handleMove
  dsimp only []
  rw [if_pos h]

theorem handleMove_succ {s : GameState} {col : Nat} (resp : Option Nat)
    (h : (dropPiece s.board 1 col).2 ≠ -1) :
    handleMove s col resp =
      aiMove { board := (dropPiece s.board 1 col).1,
               history := s.history ++ [(1, col)], level := s.level } resp := by
  unfold handleMove appendHistory
  dsimp only []
  rw [if_neg h]

/-! ## Per-column counting -/

theorem countP_flip_one {l : List Nat} {f g : Nat → Bool} {r : Nat}
    (hl : l.Nodup) (hr : r ∈ l) (hfr : f r = true) (hgr : g r = false)
    (h : ∀ x ∈ l, x ≠ r → f x = g x) : l.countP f = l.countP g + 1 := by
  induction l with
  | nil => cases hr
  | cons a t ih =>
    have hat := List.nodup_cons.mp hl
    rcases List.mem_cons.mp hr with rfl | hrt
    · have hft : t.countP f = t.countP g := by
        apply List.countP_congr
        intro x hx
        rw [h x (List.mem_cons_of_mem _ hx) fun hcon => hat.1 (hcon ▸ hx)]
      rw [List.countP_cons, List.countP_cons, hfr, hgr, hft]
      simp
    · have hfa : f a = g a :=
        h a (List.mem_cons_self _ _) fun hcon => (List.nodup_cons.mp hl).1 (hcon ▸ hrt)
      rw [List.countP_cons, List.countP_cons, hfa,
        ih hat.2 hrt fun x hx hne => h x (List.mem_cons_of_mem _ hx) hne]
      omega

theorem isOccupied_congr {b1 b2 : Board} {r c : Nat}
    (h : getCell b1 r c = getCell b2 r c) : isOccupied b1 r c = isOccupied b2 r c := by
  unfold isOccupied
  rw [h]

theorem getCell_emptyBoard (r c : Nat) :
    getCell emptyBoard r c = if r < HEIGHT ∧ c < WIDTH then some 0 else none := by
  unfold getCell emptyBoard
  rw [List.getElem?_replicate]
  by_cases hr : r < HEIGHT
  · rw [if_pos hr, Option.some_bind, List.getElem?_replicate]
    by_cases hc : c < WIDTH
    · rw [if_pos hc, if_pos ⟨hr, hc⟩]
    · rw [if_neg hc, if_neg fun hcon => hc hcon.2]
  · rw [if_neg hr, Option.none_bind, if_neg fun hcon => hr hcon.1]

theorem isOccupied_emptyBoard (r c : Nat) : isOccupied emptyBoard r c = false := by
  unfold isOccupied
  rw [getCell_emptyBoard]
  split_ifs
  · rfl
  · rfl

theorem colCount_emptyBoard (c : Nat) : colCount emptyBoard c = 0 := by
  unfold colCount
  rw [List.countP_eq_zero]
  intro r hr
  rw [isOccupied_emptyBoard]
  exact Bool.false_ne_true

theorem colCount_dropPiece (b : Board) (p c : Nat) (hp : p ≠ 0)
    (h : (dropPiece b p c).2 ≠ -1) (q : Nat) :
    colCount (dropPiece b p c).1 q = colCount b q + if q = c then 1 else 0 := by
  rcases dropPiece_spec b p c with ⟨r0, hr0, hcell, -, heq⟩ | ⟨-, heq⟩
  · rw [heq]
    dsimp only []
    rcases eq_or_ne q c with rfl | hq
    · rw [if_pos rfl]
      unfold colCount
      apply countP_flip_one (List.nodup_range _) (List.mem_range.mpr hr0)
      · unfold isOccupied
        rw [getCell_setCell_self p hcell]
        simp [hp]
      · unfold isOccupied
        rw [hcell]
        simp
      · intro x hx hne
        exact isOccupied_congr (getCell_setCell_ne p (Or.inl hne))
    · rw [if_neg hq, Nat.add_zero]
      unfold colCount
      apply List.countP_congr
      intro x hx
      rw [isOccupied_congr (getCell_setCell_ne p (Or.inr hq))]
  · rw [heq] at h
    simp at h

theorem histColCount_append (h : List (Cell × Nat)) (p col c : Nat) :
    histColCount (h ++ [(p, col)]) c = histColCount h c + if col = c then 1 else 0 := by
  unfold histColCount
  rw [List.countP_append]
  congr 1
  rw [List.countP_cons, List.countP_nil]
  simp [beq_iff_eq]

theorem ite_eq_swap (a b : Nat) : (if a = b then (1 : Nat) else 0) = if b = a then 1 else 0 := by
  rcases eq_or_ne a b with rfl | h
  · rfl
  · simp [h, Ne.symm h]

/-- C6: in every state of the full event-loop semantics — overlapping
transactions and resets during an in-flight request included — each column of
the board holds exactly as many pieces as the history has tokens targeting
it.  Every synchronous block either drops a piece and appends a token in the
same column, changes neither, or clears both to empty. -/
theorem board_matches_history {s : SysState} (hs : SysReachable s) :
    ∀ c : Nat, colCount s.board c = histColCount s.history c := by
  induction hs with
  | init =>
    intro c
    show colCount emptyBoard c = histColCount [] c
    rw [colCount_emptyBoard]
    rfl
  | @step s t hprev hstep ih =>
    cases hstep with
    | click col hcol hb hd =>
      intro c
      dsimp only []
      rw [colCount_dropPiece s.board 1 col (by decide) hd c, histColCount_append,
        ih c, ite_eq_swap]
    | resolveFail resp hf hfail => exact ih
    | resolveOk k hf hd =>
      intro c
      dsimp only []
      rw [colCount_dropPiece s.board 2 k (by decide) hd c, histColCount_append,
        ih c, ite_eq_swap]
    | finish hn => exact ih
    | reset =>
      intro c
      show colCount emptyBoard c = histColCount [] c
      rw [colCount_emptyBoard]
      rfl
    | setLevel v h1 h2 => exact ih

theorem board_matches_history_witness :
    colCount sysAfterReset.board 1 = histColCount sysAfterReset.history 1 :=
  board_matches_history
    (SysReachable.step
      (SysReachable.step
        (SysReachable.step SysReachable.init
          (SysStep.click 0 (by decide) rfl (by decide)))
        SysStep.reset)
      (SysStep.resolveOk 1 (by decide) (by decide))) 1

/-- C9: if the AI request fails in any way — fetch rejected, HTTP status not
ok, or the returned column admitting no drop — then aiMove leaves the state
exactly as it was (the failure is atomic at the UI state). -/
theorem aiMove_failure_atomic (s : GameState) (resp : Option Nat)
    (h : resp = none ∨ ∃ k : Nat, resp = some k ∧ (dropPiece s.board 2 k).2 = -1) :
    (aiMove s resp).board = s.board ∧ (aiMove s resp).history = s.history := by
  rcases h with rfl | ⟨k, rfl, hk⟩
  · exact ⟨rfl, rfl⟩
  · rw [aiMove_fail hk]
    exact ⟨rfl, rfl⟩

theorem aiMove_failure_atomic_witness :
    (aiMove initState (some 9)).board = initState.board ∧
    (aiMove initState (some 9)).history = initState.history :=
  aiMove_failure_atomic initState (some 9) (Or.inr ⟨9, rfl, by decide⟩)

/-- C7: a successful response column k in [0,6] is consumed 0-indexed:
the AI piece lands in physical board column k itself and the appended token
records k, with no index conversion anywhere. -/
theorem aiMove_uses_column_directly (s : GameState) (k : Nat) (hk : k < WIDTH)
    (hs : (dropPiece s.board 2 k).2 ≠ -1) :
    ∃ r : Nat, r < HEIGHT ∧ getCell s.board r k = some 0 ∧
      (aiMove s (some k)).board = setCell s.board r k 2 ∧
      (aiMove s (some k)).history = s.history ++ [(2, k)] := by
  rcases dropPiece_spec s.board 2 k with ⟨r0, hr0, hcell, -, heq⟩ | ⟨-, heq⟩
  · refine ⟨r0, hr0, hcell, ?_, ?_⟩
    · rw [aiMove_succ hs]
      dsimp only []
      rw [heq]
    · rw [aiMove_succ hs]
  · rw [heq] at hs
    simp at hs

theorem aiMove_uses_column_directly_witness :
    ∃ r : Nat, r < HEIGHT ∧ getCell initState.board r 3 = some 0 ∧
      (aiMove initState (some 3)).board = setCell initState.board r 3 2 ∧
      (aiMove initState (some 3)).history = initState.history ++ [(2, 3)] :=
  aiMove_uses_column_directly initState 3 (by decide) (by decide)

/-! ## Marker alternation -/

theorem alt_snoc {h : List (Cell × Nat)}
    (halt : ∀ i : Nat, i < h.length →
      (getElem? h i).map Prod.fst = some (if i % 2 = 0 then 1 else 2))
    (p c : Nat) (hp : p = if h.length % 2 = 0 then 1 else 2) :
    ∀ i : Nat, i < (h ++ [(p, c)]).length →
      (getElem? (h ++ [(p, c)]) i).map Prod.fst =
        some (if i % 2 = 0 then 1 else 2) := by
  intro i hi
  simp only [List.length_append, List.length_cons, List.length_nil] at hi
  by_cases h1 : i < h.length
  · rw [List.getElem?_append_left h1]
    exact halt i h1
  · have h2 : i = h.length := by omega
    subst h2
    rw [List.getElem?_append_right (by omega), Nat.sub_self]
    simp only [List.getElem?_cons_zero]
    rw [hp]
    rfl

theorem sysOk_invariant {s : SysState} (hs : SysReachableOk s) :
    (s.busy = true ↔ s.fetching + s.finishing = 1) ∧
    s.fetching + s.finishing ≤ 1 ∧
    s.history.length % 2 = s.fetching ∧
    ∀ i : Nat, i < s.history.length →
      (getElem? s.history i).map Prod.fst = some (if i % 2 = 0 then 1 else 2) := by
  induction hs with
  | init =>
    exact ⟨by decide, by decide, by decide, fun i hi => absurd hi (by simp [sysInit])⟩
  | @click s col hprev hcol hb hd ih =>
    obtain ⟨hbusy, hle, hpar, halt⟩ := ih
    have hne1 : s.fetching + s.finishing ≠ 1 := by
      intro hc
      have hbt := hbusy.mpr hc
      rw [hb] at hbt
      exact Bool.false_ne_true hbt
    have hf0 : s.fetching = 0 := by omega
    have hn0 : s.finishing = 0 := by omega
    have hlen0 : s.history.length % 2 = 0 := by omega
    dsimp only []
    refine ⟨by simp [hf0, hn0], by omega, ?_, ?_⟩
    · simp only [List.length_append, List.length_cons, List.length_nil]
      omega
    · exact alt_snoc halt 1 col (by rw [if_pos hlen0])
  | @resolveOk s k hprev hf hd ih =>
    obtain ⟨hbusy, hle, hpar, halt⟩ := ih
    have hf1 : s.fetching = 1 := by omega
    have hn0 : s.finishing = 0 := by omega
    have hbt : s.busy = true := hbusy.mpr (by omega)
    have hlen1 : s.history.length % 2 = 1 := by omega
    dsimp only []
    refine ⟨?_, by omega, ?_, ?_⟩
    · rw [hbt]
      simp [hf1, hn0]
    · simp only [List.length_append, List.length_cons, List.length_nil]
      omega
    · exact alt_snoc halt 2 k (by rw [if_neg (by omega)])
  | @finish s hprev hn ih =>
    obtain ⟨hbusy, hle, hpar, halt⟩ := ih
    have hn1 : s.finishing = 1 := by omega
    have hf0 : s.fetching = 0 := by omega
    dsimp only []
    refine ⟨?_, by omega, ?_, halt⟩
    · constructor
      · intro hc
        exact absurd hc (by decide)
      · intro hc
        exact absurd hc (by omega)
    · omega
  | @reset s hprev hf hn ih =>
    dsimp only []
    refine ⟨?_, by omega, by simp [hf], fun i hi => absurd hi (by simp)⟩
    constructor
    · intro hc
      exact absurd hc (by decide)
    · intro hc
      exact absurd hc (by omega)
  | @setLevel s v hprev h1 h2 ih => exact ih

/-- C3 (amended): markers strictly alternate starting with the fixed first
mover — B at even token indices, R at odd ones — in every state of the full
event-loop semantics reachable while every AI request succeeds and the reset
button is pressed only when no move transaction is in flight.  Outside those
conditions the property fails: a failed or rejected AI request makes two
consecutive B tokens reachable (see the counterexample), and a reset during
an in-flight request makes histories whose first marker is R reachable (see
the following theorem). -/
theorem history_markers :
    ∀ s : SysState, SysReachableOk s → ∀ i : Nat, i < s.history.length →
      (getElem? s.history i).map Prod.fst = some (if i % 2 = 0 then 1 else 2) :=
  fun _ hs => (sysOk_invariant hs).2.2.2

theorem history_markers_witness :
    (getElem? sysOkExample.history 0).map Prod.fst =
      some (if 0 % 2 = 0 then 1 else 2) ∧
    (getElem? sysOkExample.history 1).map Prod.fst =
      some (if 1 % 2 = 0 then 1 else 2) :=
  ⟨history_markers sysOkExample
      (SysReachableOk.resolveOk 3
        (SysReachableOk.click 3 SysReachableOk.init (by decide) rfl (by decide))
        (by decide) (by decide)) 0 (by decide),
   history_markers sysOkExample
      (SysReachableOk.resolveOk 3
        (SysReachableOk.click 3 SysReachableOk.init (by decide) rfl (by decide))
        (by decide) (by decide)) 1 (by decide)⟩

/-- Why the amendment needs the no-mid-flight-reset condition: the full
semantics reaches a state whose history starts with an R token (click on
column 0, reset while the fetch is in flight, response resolves in column 1
against the fresh board), even though every AI request succeeded. -/
theorem reset_midflight_r_history :
    SysReachable sysAfterReset ∧ sysAfterReset.history.map Prod.fst = [2] :=
  ⟨SysReachable.step
      (SysReachable.step
        (SysReachable.step SysReachable.init
          (SysStep.click 0 (by decide) rfl (by decide)))
        SysStep.reset)
      (SysStep.resolveOk 1 (by decide) (by decide)),
   by decide⟩

/-- C3 (counterexample): after a click whose AI request failed, a second
click yields the reachable history B0·B1 — markers B,B — so strict
alternation (R at odd indices) is violated in a reachable state. -/
theorem alternation_counterexample :
    Reachable (handleMove (handleMove initState 0 none) 1 none) ∧
    (handleMove (handleMove initState 0 none) 1 none).history.map Prod.fst = [1, 1] ∧
    ¬ (∀ i : Nat, i < (handleMove (handleMove initState 0 none) 1 none).history.length →
        (getElem? (handleMove (handleMove initState 0 none) 1 none).history i).map Prod.fst =
          some (if i % 2 = 0 then 1 else 2)) :=
  ⟨Reachable.click 1 none (Reachable.click 0 none Reachable.init (by decide)) (by decide),
   by decide,
   fun h => absurd (h 1 (by decide)) (by decide)⟩

/-- C1: the token appended for a move on internal column c carries the
0-indexed digit c itself, not the 1-indexed digit c+1 the wire format
prescribes: the very first click on column 0 produces the history
string "B0", whose column digit 0 lies outside [1,7]. -/
theorem history_token_zero_indexed :
    (handleMove initState 0 none).history = [(1, 0)] ∧
    historyString (handleMove initState 0 none).history = "B0" :=
  ⟨by decide, by decide⟩

/-- C2: the frontend does not stop at a decided position: winTrace is a
reachable state in which Blue already has four connected cells, yet one more
click (on column 2) still drops a piece and appends a further B token. -/
theorem continuation_after_win :
    Reachable winTrace ∧
    findWinningLine winTrace.board 1 ≠ none ∧
    (handleMove winTrace 2 none).history = winTrace.history ++ [(1, 2)] ∧
    getCell (handleMove winTrace 2 none).board 0 2 = some 1 :=
  ⟨Reachable.click 0 none
      (Reachable.click 0 (some 1)
        (Reachable.click 0 (some 1)
          (Reachable.click 0 (some 1) Reachable.init (by decide))
          (by decide))
        (by decide))
      (by decide),
   by decide, by decide, by decide⟩

end Connect4Web
